import Mathlib

/-!
Verification of the seam-carving module (`src/seam_carving.rs`).

Images and energy grids are 2D grids of natural numbers.  Pixel and energy
values are modelled as `Nat`, following the spec's data model (section 3:
energies are "non-negative integers ... unbounded in principle"); pixel values
are only ever copied, never computed with.  The pixel-grid abstraction
(`get_pixel` / `put_pixel` / `new` / dimensions) is the external collaborator
described in spec section 6.

The gradient operator `sobel_gradient_map` is an external collaborator of this
module (spec section 1 treats it as a black box producing an equal-sized grid
of non-negative energies).  Modelled from the spec: we pass the gradient of an
image as an explicit function `Nat → Nat → Nat` (column, row ↦ energy), indexed
with the image's own width and height exactly as the source indexes the
gradient grid with `image.dimensions()`.
-/

/-- A grayscale image: a width × height grid of pixel values, addressed as
`val x y` with `x` the column and `y` the row. -/
structure Grid where
  width : Nat
  height : Nat
  val : Nat → Nat → Nat

/-- Models `ImageBuffer::put_pixel`: functional update of one cell. -/
def put_pixel (g : Grid) (x y v : Nat) : Grid :=
  { g with val := fun a b => if a = x ∧ b = y then v else g.val a b }

/-- Models `GrayImage::new`: a zero-initialized grid. -/
def Grid.new (w h : Nat) : Grid :=
  ⟨w, h, fun _ _ => 0⟩

/-- Models the value computed by `set_path_energy` for cell `(x, y)`:
`prev` is the accumulated row `y - 1`, `w` the grid width, `cur` the raw
gradient value stored at `(x, y)`.  Mirrors the source exactly: start from
`above`, replace by `min above above_left` when `x > 0`, then take the `min`
with `above_right` when `x < width - 1`, and add the current cell. -/
def set_path_energy (prev : Nat → Nat) (w x cur : Nat) : Nat :=
  let above := prev x
  let m1 := if 0 < x then min above (prev (x - 1)) else above
  let m2 := if x < w - 1 then min m1 (prev (x + 1)) else m1
  m2 + cur

/-- Accumulated energy rows.  Models the in-place pass
`for y in 1..height { for x in 0..width { set_path_energy(...) } }`:
row `0` is left untouched, and each later row is computed from the (already
final) previous row and the cell's own raw value; within a row no cell reads
another cell of the same row, so the in-place pass equals this row recursion. -/
def accRow (w : Nat) (raw : Nat → Nat → Nat) : Nat → Nat → Nat
  | 0 => fun x => raw x 0
  | y + 1 => fun x => set_path_energy (accRow w raw y) w x (raw x (y + 1))

/-- Minimum over the three candidate predecessors as the spec's words state it
(spec 4.1): the accumulated values at `(x, y-1)`, at `(x-1, y-1)` when
`x > 0`, and at `(x+1, y-1)` when `x < width - 1`.  Written independently of
the source to compare against `set_path_energy`. -/
def spec_neighbor_min (A : Nat → Nat) (w x : Nat) : Nat :=
  min (A x) (min (if 0 < x then A (x - 1) else A x)
                 (if x + 1 < w then A (x + 1) else A x))

/-- Models the bottom-row scan `for x in 1..width { if c < min_energy { ... } }`:
`k` iterations remain, the next column examined is `x`, the state is
`(min_x, min_energy)`. -/
def scanFrom (e : Nat → Nat → Nat) (y : Nat) : Nat → Nat → Nat × Nat → Nat × Nat
  | _, 0, s => s
  | x, k + 1, s =>
    scanFrom e y (x + 1) k (if e x y < s.2 then (x, e x y) else s)

/-- The left-biased minimum of the bottom row: initial state `(0, e 0 (h-1))`,
then scan columns `1 .. w-1`. -/
def bottomMin (w h : Nat) (e : Nat → Nat → Nat) : Nat × Nat :=
  scanFrom e (h - 1) 1 (w - 1) (0, e 0 (h - 1))

/-- One iteration of the retrace loop body at row `y`, state `(last_x, min_energy)`.
Mirrors the source exactly, including that `min_energy` is NOT reset to
`above` at the start of an iteration: the up-left candidate is compared with
`above`, but the up-right candidate is compared with whatever `min_energy`
was carried in from the previous iteration (or from the up-left branch). -/
def retraceStep (w : Nat) (e : Nat → Nat → Nat) (y : Nat) (s : Nat × Nat) : Nat × Nat :=
  let lastX := s.1
  let above := e lastX (y - 1)
  let s1 : Nat × Nat :=
    if 0 < lastX then
      if e (lastX - 1) (y - 1) < above then (lastX - 1, e (lastX - 1) (y - 1)) else s
    else s
  if lastX < w - 1 then
    if e (lastX + 1) (y - 1) < s1.2 then (lastX + 1, e (lastX + 1) (y - 1)) else s1
  else s1

/-- Models the loop `for y in (1..height).rev()`: the first argument is the
current value of `y`; each iteration appends the chosen column to the seam. -/
def retraceGo (w : Nat) (e : Nat → Nat → Nat) : Nat → Nat × Nat → List Nat → List Nat
  | 0, _, seam => seam
  | y + 1, s, seam =>
    let s' := retraceStep w e (y + 1) s
    retraceGo w e y s' (seam ++ [s'.1])

/-- The whole bottom-row scan plus upward retrace of `find_vertical_seam`
(source lines 52-88), on an accumulated energy grid of width `w`, height `h`,
values `e`.  Returns the seam ordered bottom row first. -/
def traceSeam (w h : Nat) (e : Nat → Nat → Nat) : List Nat :=
  let s0 := bottomMin w h e
  retraceGo w e (h - 1) s0 [s0.1]

/-- Models `find_vertical_seam`.  `grad` is the gradient grid produced by the
external `sobel_gradient_map` (same dimensions as the image).  The width
assertion is the source's `assert!(image.width() >= 2, ...)`.  A height-0
image makes the source read `gradients.get_pixel(0, height - 1)` with
`height : u32 = 0`, which can only end in an index panic; that unavoidable
failure is modelled by the second branch.  The `VerticalSeam` newtype is
modelled as a bare `List Nat`. -/
def find_vertical_seam (img : Grid) (grad : Nat → Nat → Nat) : Except String (List Nat) :=
  if ¬ 2 ≤ img.width then .error "Cannot find seams if image width is < 2"
  else if img.height = 0 then .error "Image index out of bounds"
  else .ok (traceSeam img.width img.height (fun x y => accRow img.width grad y x))

/-- Models the first copy loop of `remove_vertical_seam`:
`for x in 0..x_seam { out.put_pixel(x, y, image.get_pixel(x, y)) }`.
The first `Nat` argument is the number of columns still to copy; iteration
`x` writes the source pixel `(x, y)` to `(x, y)`. -/
def copy_before (img : Grid) (y : Nat) : Nat → Grid → Grid
  | 0, out => out
  | x + 1, out => put_pixel (copy_before img y x out) x y (img.val x y)

/-- Models the second copy loop of `remove_vertical_seam`:
`for x in (x_seam + 1)..width { out.put_pixel(x - 1, y, image.get_pixel(x, y)) }`.
Iteration `k` handles source column `x = s + 1 + k` and writes it to `(s + k, y)`. -/
def copy_after (img : Grid) (y s : Nat) : Nat → Grid → Grid
  | 0, out => out
  | k + 1, out => put_pixel (copy_after img y s k out) (s + k) y (img.val (s + 1 + k) y)

/-- One row of `remove_vertical_seam`'s copy: both loops, seam column `s`. -/
def remove_row (img : Grid) (s y : Nat) (out : Grid) : Grid :=
  copy_after img y s (img.width - (s + 1)) (copy_before img y s out)

/-- Models the outer loop `for y in 0..height`, looking up
`seam[(height - y - 1)]` for each row. -/
def remove_rows (img : Grid) (seam : List Nat) : Nat → Grid → Grid
  | 0, out => out
  | y + 1, out =>
    remove_row img (seam.getD (img.height - 1 - y) 0) y (remove_rows img seam y out)

/-- Models `remove_vertical_seam`: the length assertion, allocation of a
`(width - 1) × height` image, and the row-wise copy. -/
def remove_vertical_seam (img : Grid) (seam : List Nat) : Except String Grid :=
  if seam.length = img.height then
    .ok (remove_rows img seam img.height (Grid.new (img.width - 1) img.height))
  else .error "seam length does not match image height"

/-- Source coordinates read and destination coordinates written by the two
copy loops of `remove_vertical_seam` for one row `y` with seam column `s`,
listed exactly as the loops visit them (reads first component, writes second). -/
def remove_row_accesses (w y s : Nat) : List (Nat × Nat) × List (Nat × Nat) :=
  ((List.range s).map (fun x => (x, y)) ++
     (List.range (w - (s + 1))).map (fun k => (s + 1 + k, y)),
   (List.range s).map (fun x => (x, y)) ++
     (List.range (w - (s + 1))).map (fun k => (s + k, y)))

/-- All pixel reads of the input image and writes to the output image performed
by `remove_vertical_seam` over the whole outer loop. -/
def remove_accesses (img : Grid) (seam : List Nat) :
    List (Nat × Nat) × List (Nat × Nat) :=
  ((List.range img.height).flatMap
      (fun y => (remove_row_accesses img.width y (seam.getD (img.height - 1 - y) 0)).1),
   (List.range img.height).flatMap
      (fun y => (remove_row_accesses img.width y (seam.getD (img.height - 1 - y) 0)).2))

/-- A color (Rgb) image, each pixel a triple of channel values. -/
structure ColorGrid where
  width : Nat
  height : Nat
  val : Nat → Nat → Nat × Nat × Nat

/-- Models `map_colors(image, |p| p.to_rgb())` for `Luma` pixels: each gray
value `l` becomes `Rgb([l, l, l])`. -/
def to_rgb (img : Grid) : ColorGrid :=
  ⟨img.width, img.height, fun x y => (img.val x y, img.val x y, img.val x y)⟩

/-- Functional update of one cell of a color image. -/
def put_pixel_rgb (g : ColorGrid) (x y : Nat) (v : Nat × Nat × Nat) : ColorGrid :=
  { g with val := fun a b => if a = x ∧ b = y then v else g.val a b }

/-- Models the inner translation loop of `draw_vertical_seams`:
`let mut x_original = *x; for o in &offsets[y] { if *o < *x { x_original += 1 } }`.
Note the strict comparison of each recorded offset with the raw column `x`. -/
def translate_offset (offsets : List Nat) (x : Nat) : Nat :=
  offsets.foldl (fun acc o => if o < x then acc + 1 else acc) x

/-- The translation rule as the spec's words state it: the original column is
the raw column plus one for every previously-marked column in the row whose
original position is less than or equal to the raw position.  Written from
the spec, to compare with `translate_offset`. -/
def spec_translate_offset (offsets : List Nat) (x : Nat) : Nat :=
  x + offsets.countP (fun o => decide (o ≤ x))

/-- One step of `draw_vertical_seams`'s per-seam loop: state is the per-row
offset lists and the output image; `yx` is the `(y, x)` pair produced by
`(0..height).rev().zip(&seam.0)`. -/
def draw_step (st : (Nat → List Nat) × ColorGrid) (yx : Nat × Nat) :
    (Nat → List Nat) × ColorGrid :=
  let y := yx.1
  let x := yx.2
  let xo := translate_offset (st.1 y) x
  (fun b => if b = y then st.1 y ++ [xo] else st.1 b,
   put_pixel_rgb st.2 xo y (255, 0, 0))

/-- Models `draw_vertical_seams`: convert to color, then for each seam in
order walk `(0..height).rev().zip(&seam.0)`, translating each raw column by
the already-recorded offsets of its row, painting it red, and recording it. -/
def draw_vertical_seams (img : Grid) (seams : List (List Nat)) : ColorGrid :=
  (seams.foldl
    (fun st seam =>
      (((List.range img.height).reverse).zip seam).foldl draw_step st)
    (fun _ => [], to_rgb img)).2

/-- Models the loop of `shrink_width`: `k` iterations remain; each iteration
finds a seam on the current image (via the external gradient operator
`sobel`) and removes it.  A panic in either step aborts the whole loop,
which the `Except` propagation mirrors. -/
def shrinkLoop (sobel : Grid → Nat → Nat → Nat) : Nat → Grid → Except String Grid
  | 0, img => .ok img
  | k + 1, img =>
    match find_vertical_seam img (sobel img) with
    | .error e => .error e
    | .ok seam =>
      match remove_vertical_seam img seam with
      | .error e => .error e
      | .ok img' => shrinkLoop sobel k img'

/-- Models `shrink_width`: the `target_width <= image.width()` assertion, then
`image.width() - target_width` find/remove iterations starting from a clone
of the input. -/
def shrink_width (sobel : Grid → Nat → Nat → Nat) (img : Grid) (target : Nat) :
    Except String Grid :=
  if ¬ target ≤ img.width then .error "target_width must be <= input image width"
  else shrinkLoop sobel (img.width - target) img

/-- Adjacency of seam columns in consecutive rows: they differ by at most 1. -/
def Adj (a b : Nat) : Prop := a ≤ b + 1 ∧ b ≤ a + 1

/-- An 8-connected path from row 0 down to a cell, with its total raw energy:
`PathTo w raw x y c` holds when some column sequence starting in row 0 and
moving by at most one column per row ends at `(x, y)` with energy sum `c`
(spec sections 3 and 4.1). -/
inductive PathTo (w : Nat) (raw : Nat → Nat → Nat) : Nat → Nat → Nat → Prop
  | base (x : Nat) (hx : x < w) : PathTo w raw x 0 (raw x 0)
  | step (x y c x' : Nat) (hx' : x' < w) (h1 : x' ≤ x + 1) (h2 : x ≤ x' + 1)
      (p : PathTo w raw x y c) : PathTo w raw x' (y + 1) (c + raw x' (y + 1))

/-- The 3 × 3 accumulated grid of the spec's worked example (section 8):
rows top to bottom `[1,5,1]`, `[2,2,2]`, `[7,3,3]`. -/
def exAcc : Nat → Nat → Nat := fun x y =>
  (([[1, 5, 1], [2, 2, 2], [7, 3, 3]].getD y []).getD x 0)

/-- The raw 3 × 3 gradient grid `[[0,0,5],[0,0,3],[9,5,9]]`: its accumulation
is `[[0,0,5],[0,0,3],[9,5,9]]` row 0/1 recomputed to `[0,0,5]`, `[0,0,3]`,
`[9,5,9]` and the code's retrace on it follows a non-minimal path. -/
def rawEx : Nat → Nat → Nat := fun x y =>
  (([[0, 0, 5], [0, 0, 3], [9, 5, 9]].getD y []).getD x 0)

/-- An identity-like gradient operator used to instantiate the black-box
`sobel_gradient_map` in witnesses and counterexamples: the energy of a pixel
is its own value (dimension-preserving by construction, as the spec requires
of the gradient operator). -/
def sobelC (g : Grid) : Nat → Nat → Nat := g.val

/-- A 1 × 1 image. -/
def img11 : Grid := ⟨1, 1, fun _ _ => 5⟩

/-- A 2 × 1 image with distinguishable pixels. -/
def img21 : Grid := ⟨2, 1, fun x _ => if x = 0 then 10 else 20⟩

/-- A 2 × 2 image with constant pixels. -/
def img22 : Grid := ⟨2, 2, fun _ _ => 9⟩

/-- A 2 × 0 image: two columns, no rows. -/
def img20 : Grid := ⟨2, 0, fun _ _ => 0⟩

/-- A 2 × 1 image with constant pixels, used by witnesses. -/
def img21c : Grid := ⟨2, 1, fun _ _ => 3⟩

/-! ### Basic facts about the copy loops of `remove_vertical_seam` -/

lemma put_pixel_val (g : Grid) (x y v a b : Nat) :
    (put_pixel g x y v).val a b = if a = x ∧ b = y then v else g.val a b := rfl

lemma copy_before_width (img : Grid) (y : Nat) :
    ∀ (s : Nat) (out : Grid), (copy_before img y s out).width = out.width := by
  intro s
  induction s with
  | zero => intro out; rfl
  | succ n ih => intro out; simp [copy_before, put_pixel, ih]

lemma copy_before_height (img : Grid) (y : Nat) :
    ∀ (s : Nat) (out : Grid), (copy_before img y s out).height = out.height := by
  intro s
  induction s with
  | zero => intro out; rfl
  | succ n ih => intro out; simp [copy_before, put_pixel, ih]

lemma copy_after_width (img : Grid) (y s : Nat) :
    ∀ (k : Nat) (out : Grid), (copy_after img y s k out).width = out.width := by
  intro k
  induction k with
  | zero => intro out; rfl
  | succ n ih => intro out; simp [copy_after, put_pixel, ih]

lemma copy_after_height (img : Grid) (y s : Nat) :
    ∀ (k : Nat) (out : Grid), (copy_after img y s k out).height = out.height := by
  intro k
  induction k with
  | zero => intro out; rfl
  | succ n ih => intro out; simp [copy_after, put_pixel, ih]

lemma copy_before_val (img : Grid) (y : Nat) :
    ∀ (s : Nat) (out : Grid) (a b : Nat),
      (copy_before img y s out).val a b =
        if a < s ∧ b = y then img.val a y else out.val a b := by
  intro s
  induction s with
  | zero => intro out a b; simp [copy_before]
  | succ n ih =>
    intro out a b
    simp only [copy_before, put_pixel_val, ih]
    rcases eq_or_ne a n with rfl | han
    · by_cases hb : b = y <;> simp [hb, Nat.lt_irrefl, Nat.lt_succ_iff]
    · have hiff : (a < n ∧ b = y) ↔ (a < n + 1 ∧ b = y) := by
        constructor <;> (rintro ⟨h1, h2⟩; exact ⟨by omega, h2⟩)
      simp [han, hiff]

lemma copy_after_val (img : Grid) (y s : Nat) :
    ∀ (k : Nat) (out : Grid) (a b : Nat),
      (copy_after img y s k out).val a b =
        if s ≤ a ∧ a < s + k ∧ b = y then img.val (a + 1) y else out.val a b := by
  intro k
  induction k with
  | zero =>
    intro out a b
    simp only [copy_after]
    rw [if_neg (by omega : ¬(s ≤ a ∧ a < s + 0 ∧ b = y))]
  | succ n ih =>
    intro out a b
    simp only [copy_after, put_pixel_val, ih]
    rcases eq_or_ne a (s + n) with rfl | han
    · have h1 : s + 1 + n = s + n + 1 := by omega
      by_cases hb : b = y <;>
        simp [hb, h1, Nat.lt_irrefl, Nat.lt_succ_iff]
    · have hiff : (s ≤ a ∧ a < s + n ∧ b = y) ↔ (s ≤ a ∧ a < s + (n + 1) ∧ b = y) := by
        constructor <;> (rintro ⟨h1, h2, h3⟩; exact ⟨h1, by omega, h3⟩)
      simp [han, hiff]

lemma remove_row_width (img : Grid) (s y : Nat) (out : Grid) :
    (remove_row img s y out).width = out.width := by
  simp [remove_row, copy_after_width, copy_before_width]

lemma remove_row_height (img : Grid) (s y : Nat) (out : Grid) :
    (remove_row img s y out).height = out.height := by
  simp [remove_row, copy_after_height, copy_before_height]

lemma remove_row_val (img : Grid) (s y : Nat) (out : Grid) (a b : Nat)
    (hs : s < img.width) :
    (remove_row img s y out).val a b =
      if b = y then
        if a < s then img.val a y
        else if a < img.width - 1 then img.val (a + 1) y
        else out.val a b
      else out.val a b := by
  simp only [remove_row, copy_after_val, copy_before_val]
  have hw : s + (img.width - (s + 1)) = img.width - 1 := by omega
  rw [hw]
  by_cases hb : b = y <;> simp [hb] <;> split_ifs <;> first | rfl | omega

lemma remove_row_val_ne (img : Grid) (s y : Nat) (out : Grid) (a b : Nat)
    (hb : b ≠ y) :
    (remove_row img s y out).val a b = out.val a b := by
  simp [remove_row, copy_after_val, copy_before_val, hb]

lemma remove_rows_width (img : Grid) (seam : List Nat) :
    ∀ (n : Nat) (out : Grid), (remove_rows img seam n out).width = out.width := by
  intro n
  induction n with
  | zero => intro out; rfl
  | succ m ih => intro out; simp [remove_rows, remove_row_width, ih]

lemma remove_rows_height (img : Grid) (seam : List Nat) :
    ∀ (n : Nat) (out : Grid), (remove_rows img seam n out).height = out.height := by
  intro n
  induction n with
  | zero => intro out; rfl
  | succ m ih => intro out; simp [remove_rows, remove_row_height, ih]

lemma remove_rows_val_ge (img : Grid) (seam : List Nat) :
    ∀ (n : Nat) (out : Grid) (a b : Nat), n ≤ b →
      (remove_rows img seam n out).val a b = out.val a b := by
  intro n
  induction n with
  | zero => intro out a b _; rfl
  | succ m ih =>
    intro out a b hb
    rw [remove_rows, remove_row_val_ne _ _ _ _ _ _ (by omega), ih _ _ _ (by omega)]

lemma getD_lt_of_forall (seam : List Nat) (w : Nat) (hw : 0 < w)
    (h : ∀ e ∈ seam, e < w) (i : Nat) : seam.getD i 0 < w := by
  rcases Nat.lt_or_ge i seam.length with hi | hi
  · rw [List.getD_eq_getElem seam 0 hi]
    exact h _ (List.getElem_mem hi)
  · rw [List.getD_eq_default seam 0 hi]
    exact hw

lemma remove_rows_val (img : Grid) (seam : List Nat)
    (hs : ∀ b, seam.getD (img.height - 1 - b) 0 < img.width) :
    ∀ (n : Nat) (out : Grid) (a b : Nat), b < n →
      (remove_rows img seam n out).val a b =
        if a < seam.getD (img.height - 1 - b) 0 then img.val a b
        else if a < img.width - 1 then img.val (a + 1) b
        else out.val a b := by
  intro n
  induction n with
  | zero => intro out a b hb; omega
  | succ m ih =>
    intro out a b hb
    rcases eq_or_ne b m with rfl | hbm
    · rw [remove_rows, remove_row_val _ _ _ _ _ _ (hs b), if_pos rfl,
        remove_rows_val_ge _ _ _ _ _ _ (Nat.le_refl b)]
    · rw [remove_rows, remove_row_val_ne _ _ _ _ _ _ hbm, ih _ _ _ (by omega)]

/-! ### Invariants of the bottom-row scan and the upward retrace -/

lemma scanFrom_fst_lt (e : Nat → Nat → Nat) (y w : Nat) :
    ∀ (k x : Nat) (s : Nat × Nat), s.1 < w → x + k ≤ w → (scanFrom e y x k s).1 < w := by
  intro k
  induction k with
  | zero => intro x s hs _; exact hs
  | succ n ih =>
    intro x s hs hxk
    rw [scanFrom]
    apply ih
    · by_cases hc : e x y < s.2 <;> simp [hc] <;> omega
    · omega

lemma bottomMin_fst_lt (w h : Nat) (e : Nat → Nat → Nat) (hw : 2 ≤ w) :
    (bottomMin w h e).1 < w := by
  apply scanFrom_fst_lt
  · simpa using by omega
  · omega

lemma retraceStep_cases (w : Nat) (e : Nat → Nat → Nat) (y : Nat) (s : Nat × Nat) :
    (retraceStep w e y s).1 = s.1 ∨
    (0 < s.1 ∧ (retraceStep w e y s).1 = s.1 - 1) ∨
    (s.1 < w - 1 ∧ (retraceStep w e y s).1 = s.1 + 1) := by
  simp only [retraceStep]
  by_cases h1 : 0 < s.1 <;> by_cases h3 : s.1 < w - 1 <;> simp [h1, h3] <;>
    split_ifs <;> simp [h1, h3]

lemma retraceGo_spec (w : Nat) (e : Nat → Nat → Nat) :
    ∀ (y : Nat) (s : Nat × Nat) (seam : List Nat),
      s.1 < w → (∀ a ∈ seam, a < w) → List.Chain' Adj seam →
      seam.getLast? = some s.1 →
      (retraceGo w e y s seam).length = seam.length + y ∧
      (∀ a ∈ retraceGo w e y s seam, a < w) ∧
      List.Chain' Adj (retraceGo w e y s seam) := by
  intro y
  induction y with
  | zero =>
    intro s seam h1 h2 h3 _
    exact ⟨by simp [retraceGo], h2, h3⟩
  | succ n ih =>
    intro s seam h1 h2 h3 hlast
    simp only [retraceGo]
    have hstep := retraceStep_cases w e (n + 1) s
    have hs' : (retraceStep w e (n + 1) s).1 < w := by
      rcases hstep with h | ⟨h0, h⟩ | ⟨hlt, h⟩ <;> omega
    have hadj : Adj s.1 (retraceStep w e (n + 1) s).1 := by
      unfold Adj; rcases hstep with h | ⟨h0, h⟩ | ⟨hlt, h⟩ <;> omega
    obtain ⟨l1, l2, l3⟩ := ih (retraceStep w e (n + 1) s)
      (seam ++ [(retraceStep w e (n + 1) s).1]) hs'
      (by
        intro a ha
        rcases List.mem_append.mp ha with h | h
        · exact h2 a h
        · simp at h; omega)
      (by
        rw [List.chain'_append]
        refine ⟨h3, List.chain'_singleton _, ?_⟩
        intro p hp q hq
        simp at hq
        rw [hlast] at hp
        simp at hp
        rw [hp, hq] at hadj
        exact hadj)
      (by simp)
    refine ⟨?_, l2, l3⟩
    rw [l1]
    simp
    omega

lemma traceSeam_spec (w h : Nat) (e : Nat → Nat → Nat) (hw : 2 ≤ w) (hh : 1 ≤ h) :
    (traceSeam w h e).length = h ∧
    (∀ a ∈ traceSeam w h e, a < w) ∧
    List.Chain' Adj (traceSeam w h e) := by
  have hb := bottomMin_fst_lt w h e hw
  obtain ⟨l1, l2, l3⟩ := retraceGo_spec w e (h - 1) (bottomMin w h e)
    [(bottomMin w h e).1] hb (by simpa using hb) (List.chain'_singleton _) (by simp)
  exact ⟨by rw [show traceSeam w h e = retraceGo w e (h - 1) (bottomMin w h e)
      [(bottomMin w h e).1] from rfl, l1]; simp; omega, l2, l3⟩

lemma find_vertical_seam_spec (img : Grid) (grad : Nat → Nat → Nat)
    (hw : 2 ≤ img.width) (hh : 1 ≤ img.height) :
    find_vertical_seam img grad =
      .ok (traceSeam img.width img.height (fun x y => accRow img.width grad y x)) ∧
    (traceSeam img.width img.height (fun x y => accRow img.width grad y x)).length
      = img.height ∧
    (∀ a ∈ traceSeam img.width img.height (fun x y => accRow img.width grad y x),
      a < img.width) ∧
    List.Chain' Adj
      (traceSeam img.width img.height (fun x y => accRow img.width grad y x)) := by
  obtain ⟨l1, l2, l3⟩ :=
    traceSeam_spec img.width img.height (fun x y => accRow img.width grad y x) hw hh
  refine ⟨?_, l1, l2, l3⟩
  unfold find_vertical_seam
  rw [if_neg (not_not_intro hw), if_neg (by omega)]

/-! ### The accumulation pass is the shortest-path dynamic program -/

lemma set_path_energy_eq_spec (prev : Nat → Nat) (w x cur : Nat) (hw : 1 ≤ w) :
    set_path_energy prev w x cur = spec_neighbor_min prev w x + cur := by
  simp only [set_path_energy, spec_neighbor_min]
  split_ifs <;> omega

lemma pathTo_lt (w : Nat) (raw : Nat → Nat → Nat) {x y c : Nat}
    (hp : PathTo w raw x y c) : x < w := by
  cases hp with
  | base z hz => exact hz
  | step z y c x' hx' h1 h2 p => exact hx'

lemma set_path_energy_le (prev : Nat → Nat) (w x' cur x : Nat)
    (hx : x < w) (h1 : x' ≤ x + 1) (h2 : x ≤ x' + 1) :
    set_path_energy prev w x' cur ≤ prev x + cur := by
  rcases (by omega : x + 1 = x' ∨ x = x' ∨ x = x' + 1) with h | h | h
  · subst h
    simp only [set_path_energy, Nat.add_sub_cancel]
    split_ifs <;> omega
  · subst h
    simp only [set_path_energy]
    split_ifs <;> omega
  · subst h
    simp only [set_path_energy]
    split_ifs <;> omega

lemma accRow_le_pathTo (w : Nat) (raw : Nat → Nat → Nat) {x y c : Nat}
    (hp : PathTo w raw x y c) : accRow w raw y x ≤ c := by
  induction hp with
  | base z hz => exact Nat.le_refl _
  | step z y c x' hx' h1 h2 p ih =>
    have hz : z < w := pathTo_lt w raw p
    calc accRow w raw (y + 1) x'
        = set_path_energy (accRow w raw y) w x' (raw x' (y + 1)) := rfl
      _ ≤ accRow w raw y z + raw x' (y + 1) :=
          set_path_energy_le (accRow w raw y) w x' (raw x' (y + 1)) z hz h1 h2
      _ ≤ c + raw x' (y + 1) := Nat.add_le_add_right ih _

lemma pathTo_accRow (w : Nat) (raw : Nat → Nat → Nat) :
    ∀ (y x : Nat), x < w → PathTo w raw x y (accRow w raw y x) := by
  intro y
  induction y with
  | zero => intro x hx; exact PathTo.base x hx
  | succ n ih =>
    intro x hx
    have hex : ∃ p, p < w ∧ x ≤ p + 1 ∧ p ≤ x + 1 ∧
        set_path_energy (accRow w raw n) w x (raw x (n + 1)) =
          accRow w raw n p + raw x (n + 1) := by
      simp only [set_path_energy]
      by_cases h1 : 0 < x <;> by_cases h2 : x < w - 1
      · simp only [if_pos h1, if_pos h2]
        rcases (by omega :
            min (min (accRow w raw n x) (accRow w raw n (x - 1))) (accRow w raw n (x + 1))
              = accRow w raw n x ∨
            min (min (accRow w raw n x) (accRow w raw n (x - 1))) (accRow w raw n (x + 1))
              = accRow w raw n (x - 1) ∨
            min (min (accRow w raw n x) (accRow w raw n (x - 1))) (accRow w raw n (x + 1))
              = accRow w raw n (x + 1)) with h | h | h
        · exact ⟨x, hx, by omega, by omega, by omega⟩
        · exact ⟨x - 1, by omega, by omega, by omega, by omega⟩
        · exact ⟨x + 1, by omega, by omega, by omega, by omega⟩
      · simp only [if_pos h1, if_neg h2]
        rcases (by omega :
            min (accRow w raw n x) (accRow w raw n (x - 1)) = accRow w raw n x ∨
            min (accRow w raw n x) (accRow w raw n (x - 1)) = accRow w raw n (x - 1))
          with h | h
        · exact ⟨x, hx, by omega, by omega, by omega⟩
        · exact ⟨x - 1, by omega, by omega, by omega, by omega⟩
      · simp only [if_neg h1, if_pos h2]
        rcases (by omega :
            min (accRow w raw n x) (accRow w raw n (x + 1)) = accRow w raw n x ∨
            min (accRow w raw n x) (accRow w raw n (x + 1)) = accRow w raw n (x + 1))
          with h | h
        · exact ⟨x, hx, by omega, by omega, by omega⟩
        · exact ⟨x + 1, by omega, by omega, by omega, by omega⟩
      · simp only [if_neg h1, if_neg h2]
        exact ⟨x, hx, by omega, by omega, by omega⟩
    obtain ⟨p, hpw, hxp, hpx, heq⟩ := hex
    show PathTo w raw x (n + 1) (set_path_energy (accRow w raw n) w x (raw x (n + 1)))
    rw [heq]
    exact PathTo.step p n (accRow w raw n p) x hx hxp hpx (ih p hpw)

/-! ### Dimensions of seam removal, and the shrinking loop -/

lemma remove_vertical_seam_ok (img : Grid) (seam : List Nat)
    (hl : seam.length = img.height) :
    remove_vertical_seam img seam =
      .ok (remove_rows img seam img.height (Grid.new (img.width - 1) img.height)) := by
  simp [remove_vertical_seam, hl]

lemma remove_dims (img : Grid) (seam : List Nat) (hl : seam.length = img.height) :
    ∃ out, remove_vertical_seam img seam = .ok out ∧
      out.width = img.width - 1 ∧ out.height = img.height :=
  ⟨_, remove_vertical_seam_ok img seam hl,
    by rw [remove_rows_width]; rfl, by rw [remove_rows_height]; rfl⟩

lemma shrinkLoop_ok (sobel : Grid → Nat → Nat → Nat) :
    ∀ (k : Nat) (img : Grid), 1 ≤ img.height → k + 1 ≤ img.width →
      ∃ out, shrinkLoop sobel k img = .ok out ∧
        out.width = img.width - k ∧ out.height = img.height := by
  intro k
  induction k with
  | zero => intro img hh hw; exact ⟨img, rfl, by omega, rfl⟩
  | succ n ih =>
    intro img hh hw
    obtain ⟨hf, hlen, hmem, hchain⟩ :=
      find_vertical_seam_spec img (sobel img) (by omega) hh
    obtain ⟨out1, ho1, hw1, hh1⟩ := remove_dims img _ hlen
    obtain ⟨out, ho, how, hoh⟩ := ih out1 (by omega) (by omega)
    refine ⟨out, ?_, by omega, by omega⟩
    simp only [shrinkLoop, hf, ho1]
    exact ho

lemma shrinkLoop_err (sobel : Grid → Nat → Nat → Nat) :
    ∀ (k : Nat) (img : Grid), 1 ≤ img.height → 1 ≤ img.width → img.width ≤ k →
      shrinkLoop sobel k img = .error "Cannot find seams if image width is < 2" := by
  intro k
  induction k with
  | zero => intro img hh hw1 hwk; omega
  | succ n ih =>
    intro img hh hw1 hwk
    rcases (by omega : img.width = 1 ∨ 2 ≤ img.width) with h1 | h2
    · have hf : find_vertical_seam img (sobel img) =
          .error "Cannot find seams if image width is < 2" := by
        unfold find_vertical_seam
        rw [if_pos (by omega)]
      simp only [shrinkLoop, hf]
    · obtain ⟨hf, hlen, _, _⟩ := find_vertical_seam_spec img (sobel img) h2 hh
      obtain ⟨out1, ho1, hw1', hh1⟩ := remove_dims img _ hlen
      simp only [shrinkLoop, hf, ho1]
      exact ih out1 (by omega) (by omega) (by omega)

/-! ### The offset translation of `draw_vertical_seams` -/

lemma translate_foldl (x : Nat) :
    ∀ (offsets : List Nat) (acc : Nat),
      offsets.foldl (fun a o => if o < x then a + 1 else a) acc
        = acc + offsets.countP (fun o => decide (o < x)) := by
  intro offsets
  induction offsets with
  | nil => intro acc; simp
  | cons o os ih =>
    intro acc
    simp only [List.foldl_cons, List.countP_cons, ih]
    by_cases h : o < x <;> simp [h] <;> omega

lemma translate_offset_eq_count (offsets : List Nat) (x : Nat) :
    translate_offset offsets x = x + offsets.countP (fun o => decide (o < x)) :=
  translate_foldl x offsets x

/-! ### In-bounds accesses of `remove_vertical_seam` -/

lemma remove_row_accesses_bounds (w y s : Nat) (hs : s < w) :
    (∀ p ∈ (remove_row_accesses w y s).1, p.1 < w ∧ p.2 = y) ∧
    (∀ p ∈ (remove_row_accesses w y s).2, p.1 < w - 1 ∧ p.2 = y) := by
  constructor <;>
  · intro p hp
    simp only [remove_row_accesses, List.mem_append, List.mem_map, List.mem_range] at hp
    rcases hp with ⟨x, hx, rfl⟩ | ⟨k, hk, rfl⟩ <;> exact ⟨by omega, rfl⟩

lemma remove_accesses_bounds (img : Grid) (seam : List Nat)
    (hw : 1 ≤ img.width) (hmem : ∀ e ∈ seam, e < img.width) :
    (∀ p ∈ (remove_accesses img seam).1, p.1 < img.width ∧ p.2 < img.height) ∧
    (∀ p ∈ (remove_accesses img seam).2, p.1 < img.width - 1 ∧ p.2 < img.height) := by
  have hs : ∀ b, seam.getD (img.height - 1 - b) 0 < img.width :=
    fun b => getD_lt_of_forall seam img.width hw hmem _
  constructor
  · intro p hp
    simp only [remove_accesses, List.mem_flatMap, List.mem_range] at hp
    obtain ⟨y, hy, hpy⟩ := hp
    obtain ⟨h1, h2⟩ := (remove_row_accesses_bounds img.width y _ (hs y)).1 p hpy
    exact ⟨h1, by omega⟩
  · intro p hp
    simp only [remove_accesses, List.mem_flatMap, List.mem_range] at hp
    obtain ⟨y, hy, hpy⟩ := hp
    obtain ⟨h1, h2⟩ := (remove_row_accesses_bounds img.width y _ (hs y)).2 p hpy
    exact ⟨h1, by omega⟩

/-! ### Claims -/

/-- Claim C1: the spec states that the upward retrace moves, at every step, to
whichever of the three candidates above has the smallest accumulated energy,
with left-bias on ties, and that on the accumulated grid
`[[1,5,1],[2,2,2],[7,3,3]]` the traced seam is `[1,1,0]` (bottom to top).
The code instead carries `min_energy` over from the previous iteration
instead of resetting it to the up-neighbour's value, so from column 1 it
compares the up-right value 2 against the stale 3 and moves right, tracing
`[1,2,2]`.  This theorem evaluates the embedded retrace at that input. -/
theorem C1_retrace_on_example :
    traceSeam 3 3 exAcc = [1, 2, 2] ∧ traceSeam 3 3 exAcc ≠ [1, 1, 0] := by
  constructor
  · decide
  · decide

/-- Claim C2: on a grid with at least 2 columns and 1 row, the accumulation
pass leaves row 0 untouched, computes every later cell as its own raw value
plus the minimum of the in-bounds accumulated values of the row above
(up, up-left when `x > 0`, up-right when `x < width - 1`), and consequently
every cell holds the minimal total energy of an 8-connected path from
row 0 to it. -/
theorem C2_accumulation_is_min_path_energy (w h : Nat) (raw : Nat → Nat → Nat)
    (hw : 2 ≤ w) (hh : 1 ≤ h) :
    (∀ x, accRow w raw 0 x = raw x 0) ∧
    (∀ y x, y + 1 < h → x < w →
      accRow w raw (y + 1) x = raw x (y + 1) + spec_neighbor_min (accRow w raw y) w x) ∧
    (∀ y x, y < h → x < w →
      (∀ c, PathTo w raw x y c → accRow w raw y x ≤ c) ∧
      PathTo w raw x y (accRow w raw y x)) := by
  refine ⟨fun x => rfl, ?_, ?_⟩
  · intro y x hy hx
    rw [show accRow w raw (y + 1) x
          = set_path_energy (accRow w raw y) w x (raw x (y + 1)) from rfl,
      set_path_energy_eq_spec (accRow w raw y) w x (raw x (y + 1)) (by omega)]
    omega
  · intro y x hy hx
    exact ⟨fun c hc => accRow_le_pathTo w raw hc, pathTo_accRow w raw y x hx⟩

/-- Witness for claim C2 at the concrete 2-column, 1-row corner of `exAcc`. -/
theorem C2_witness :
    (2 ≤ 2 ∧ 1 ≤ 1) ∧
    ((∀ x, accRow 2 exAcc 0 x = exAcc x 0) ∧
     (∀ y x, y + 1 < 1 → x < 2 →
       accRow 2 exAcc (y + 1) x
         = exAcc x (y + 1) + spec_neighbor_min (accRow 2 exAcc y) 2 x) ∧
     (∀ y x, y < 1 → x < 2 →
       (∀ c, PathTo 2 exAcc x y c → accRow 2 exAcc y x ≤ c) ∧
       PathTo 2 exAcc x y (accRow 2 exAcc y x))) :=
  ⟨⟨by decide, by decide⟩,
   C2_accumulation_is_min_path_energy 2 1 exAcc (by decide) (by decide)⟩

/-- Counterexample to claim C3: the code adds 1 only for previously-marked
columns strictly less than the raw position (not less-or-equal as the claim
states), so on a 2 × 1 image with seam history `[[0],[0]]` the second removed
pixel (original column 1) is never marked: pixel `(1,0)` keeps its gray
value instead of becoming red. -/
theorem C3_counterexample :
    translate_offset [0] 0 ≠ spec_translate_offset [0] 0 ∧
    (draw_vertical_seams img21 [[0], [0]]).val 1 0 ≠ (255, 0, 0) := by
  constructor
  · decide
  · decide

/-- Claim C3 (amended): `draw_vertical_seams` translates each seam entry's
recorded raw column `x` by adding 1 for every previously-marked column in the
same row whose recorded position is strictly less than `x`; with this rule
marks of later seams can land on already-marked columns, so not every removed
seam pixel is marked at its correct coordinate in the original image. -/
theorem C3_amended_translation_rule (offsets : List Nat) (x : Nat) :
    translate_offset offsets x = x + offsets.countP (fun o => decide (o < x)) :=
  translate_offset_eq_count offsets x

/-- Claim C4: removing a valid-length, in-bounds seam from an image of width
at least 2 yields an image one column narrower and of the same height, whose
row `y` keeps pixels left of the seam column `seam[h-1-y]` in place and
shifts pixels right of it left by one. -/
theorem C4_remove_preserves_rows (img : Grid) (seam : List Nat)
    (hw : 2 ≤ img.width) (hl : seam.length = img.height)
    (hmem : ∀ e ∈ seam, e < img.width) :
    ∃ out, remove_vertical_seam img seam = .ok out ∧
      out.width = img.width - 1 ∧ out.height = img.height ∧
      ∀ y, y < img.height →
        (∀ x, x < seam.getD (img.height - 1 - y) 0 → out.val x y = img.val x y) ∧
        (∀ x, seam.getD (img.height - 1 - y) 0 < x → x < img.width →
          out.val (x - 1) y = img.val x y) := by
  have hs : ∀ b, seam.getD (img.height - 1 - b) 0 < img.width :=
    fun b => getD_lt_of_forall seam img.width (by omega) hmem _
  refine ⟨_, remove_vertical_seam_ok img seam hl,
    by rw [remove_rows_width]; rfl, by rw [remove_rows_height]; rfl, ?_⟩
  intro y hy
  constructor
  · intro x hx
    rw [remove_rows_val img seam hs img.height _ x y hy, if_pos hx]
  · intro x hx1 hx2
    rw [remove_rows_val img seam hs img.height _ (x - 1) y hy,
      if_neg (by omega), if_pos (by omega)]
    congr 1
    omega

/-- Witness for claim C4 on the 2 × 2 image `img22` and seam `[0, 0]`. -/
theorem C4_witness :
    (2 ≤ img22.width ∧ ([0, 0] : List Nat).length = img22.height ∧
      ∀ e ∈ ([0, 0] : List Nat), e < img22.width) ∧
    (∃ out, remove_vertical_seam img22 [0, 0] = .ok out ∧
      out.width = img22.width - 1 ∧ out.height = img22.height ∧
      ∀ y, y < img22.height →
        (∀ x, x < ([0, 0] : List Nat).getD (img22.height - 1 - y) 0 →
          out.val x y = img22.val x y) ∧
        (∀ x, ([0, 0] : List Nat).getD (img22.height - 1 - y) 0 < x →
          x < img22.width → out.val (x - 1) y = img22.val x y)) :=
  ⟨⟨by decide, by decide, by decide⟩,
   C4_remove_preserves_rows img22 [0, 0] (by decide) (by decide) (by decide)⟩

/-- Counterexample to claim C5 as stated: on a 2 × 0 image (width 2, so the
width assertion passes) `find_vertical_seam` reads
`gradients.get_pixel(0, height - 1)` with `height = 0` and can only fail with
an index panic; it does not return a sequence of 0 column indices. -/
theorem C5_counterexample :
    find_vertical_seam img20 (fun _ _ => 0) = .error "Image index out of bounds" := rfl

/-- Claim C5 (amended with the spec's own height ≥ 1 precondition): on an
image of width at least 2 and height `h` at least 1, `find_vertical_seam`
returns a sequence of exactly `h` column indices, ordered bottom row first,
every entry a valid column, and adjacent entries differing by at most 1. -/
theorem C5_amended_seam_invariants (img : Grid) (grad : Nat → Nat → Nat)
    (hw : 2 ≤ img.width) (hh : 1 ≤ img.height) :
    ∃ s, find_vertical_seam img grad = .ok s ∧ s.length = img.height ∧
      (∀ a ∈ s, a < img.width) ∧ List.Chain' Adj s := by
  obtain ⟨h1, h2, h3, h4⟩ := find_vertical_seam_spec img grad hw hh
  exact ⟨_, h1, h2, h3, h4⟩

/-- Witness for claim C5 on the 2 × 2 image `img22` with an all-zero gradient. -/
theorem C5_witness :
    (2 ≤ img22.width ∧ 1 ≤ img22.height) ∧
    (∃ s, find_vertical_seam img22 (fun _ _ => 0) = .ok s ∧ s.length = img22.height ∧
      (∀ a ∈ s, a < img22.width) ∧ List.Chain' Adj s) :=
  ⟨⟨by decide, by decide⟩,
   C5_amended_seam_invariants img22 (fun _ _ => 0) (by decide) (by decide)⟩

/-- Counterexample to claim C6 as stated: shrinking the 2 × 0 image to target
width 1 does not return a width-1 image; the single seam search fails on the
height-0 image. -/
theorem C6_counterexample :
    shrink_width sobelC img20 1 = .error "Image index out of bounds" := rfl

/-- Claim C6 (amended with height ≥ 1): for a target width `w` with
`1 ≤ w ≤ width` and an image of height at least 1, `shrink_width` returns an
image of width exactly `w` and unchanged height. -/
theorem C6_amended_shrink_dims (sobel : Grid → Nat → Nat → Nat) (img : Grid)
    (target : Nat) (h1 : 1 ≤ target) (h2 : target ≤ img.width)
    (hh : 1 ≤ img.height) :
    ∃ out, shrink_width sobel img target = .ok out ∧
      out.width = target ∧ out.height = img.height := by
  obtain ⟨out, ho, hw, hht⟩ := shrinkLoop_ok sobel (img.width - target) img hh (by omega)
  refine ⟨out, ?_, by omega, hht⟩
  unfold shrink_width
  rw [if_neg (not_not_intro h2)]
  exact ho

/-- Witness for claim C6: shrinking the 2 × 2 image `img22` to width 1. -/
theorem C6_witness :
    (1 ≤ 1 ∧ 1 ≤ img22.width ∧ 1 ≤ img22.height) ∧
    (∃ out, shrink_width sobelC img22 1 = .ok out ∧
      out.width = 1 ∧ out.height = img22.height) :=
  ⟨⟨by decide, by decide, by decide⟩,
   C6_amended_shrink_dims sobelC img22 1 (by decide) (by decide) (by decide)⟩

/-- Counterexample to claim C7: `remove_vertical_seam` has no width check; on
the 1 × 1 image with seam `[0]` it succeeds and returns a 0-width image
rather than failing with an invalid-input condition. -/
theorem C7_counterexample :
    (remove_vertical_seam img11 [0]).toOption.map Grid.width = some 0 := by decide

/-- Claim C7 (amended): `remove_vertical_seam` does not require width ≥ 2; on
an image of width 1 and a height-length seam whose entries are 0 (the only
valid column) it succeeds and returns a 0-width image of the same height. -/
theorem C7_amended_width_one_removal (img : Grid) (seam : List Nat)
    (hw : img.width = 1) (hl : seam.length = img.height)
    (hmem : ∀ e ∈ seam, e = 0) :
    ∃ out, remove_vertical_seam img seam = .ok out ∧
      out.width = 0 ∧ out.height = img.height := by
  obtain ⟨out, ho, hww, hhh⟩ := remove_dims img seam hl
  exact ⟨out, ho, by omega, hhh⟩

/-- Witness for claim C7 on the 1 × 1 image `img11` with seam `[0]`. -/
theorem C7_witness :
    (img11.width = 1 ∧ ([0] : List Nat).length = img11.height ∧
      ∀ e ∈ ([0] : List Nat), e = 0) ∧
    (∃ out, remove_vertical_seam img11 [0] = .ok out ∧
      out.width = 0 ∧ out.height = img11.height) :=
  ⟨⟨by decide, by decide, by decide⟩,
   C7_amended_width_one_removal img11 [0] (by decide) (by decide) (by decide)⟩

/-- Counterexample to claim C8: `shrink_width img22 0` passes the only
explicit guard (`target_width <= width` accepts 0), performs a full
find-and-remove iteration (shown by the third and fourth conjuncts: the first
seam search and removal on `img22` both succeed), and only then fails inside
`find_vertical_seam`'s width assertion — not by an up-front rejection before
any seam removal. -/
theorem C8_counterexample :
    shrink_width sobelC img22 0 = .error "Cannot find seams if image width is < 2" ∧
    shrink_width sobelC img22 0 ≠ .error "target_width must be <= input image width" ∧
    (find_vertical_seam img22 (sobelC img22)).toOption = some [0, 1] ∧
    (remove_vertical_seam img22 [0, 1]).toOption.map Grid.width = some 1 := by
  refine ⟨rfl, fun h => ?_, by decide, by decide⟩
  have h3 : ("Cannot find seams if image width is < 2" : String)
      = "target_width must be <= input image width" :=
    Except.error.inj
      ((rfl : shrink_width sobelC img22 0
          = Except.error "Cannot find seams if image width is < 2").symm.trans h)
  exact absurd h3 (by decide)

/-- Claim C8 (amended): `shrink_width` has no explicit guard against a zero
target width; for any image of width and height at least 1 the call
`shrink_width image 0` runs the shrinking loop until the working image has
width 1 and then fails inside `find_vertical_seam`'s width assertion, after
performing `width - 1` seam removals; a zero-width image is never produced. -/
theorem C8_amended_zero_target (sobel : Grid → Nat → Nat → Nat) (img : Grid)
    (hw : 1 ≤ img.width) (hh : 1 ≤ img.height) :
    shrink_width sobel img 0 = .error "Cannot find seams if image width is < 2" := by
  unfold shrink_width
  rw [if_neg (not_not_intro (Nat.zero_le _))]
  exact shrinkLoop_err sobel (img.width - 0) img hh hw (by omega)

/-- Witness for claim C8 on the 2 × 2 image `img22`. -/
theorem C8_witness :
    (1 ≤ img22.width ∧ 1 ≤ img22.height) ∧
    shrink_width sobelC img22 0 = .error "Cannot find seams if image width is < 2" :=
  ⟨⟨by decide, by decide⟩, C8_amended_zero_target sobelC img22 (by decide) (by decide)⟩

/-- Claim C9: shrinking an image to its own width performs zero iterations
and returns the image unchanged in content and dimensions. -/
theorem C9_shrink_to_same_width (sobel : Grid → Nat → Nat → Nat) (img : Grid) :
    shrink_width sobel img img.width = .ok img := by
  unfold shrink_width
  rw [if_neg (not_not_intro (Nat.le_refl _)), Nat.sub_self]
  rfl

/-- Claim C10: once the seam-length assertion passes, and given that every
seam entry is a valid column of a width ≥ 1 image, every source read of
`remove_vertical_seam` lies inside the `w × h` input and every destination
write lies inside the `(w-1) × h` output, and the operation returns a result. -/
theorem C10_remove_accesses_in_bounds (img : Grid) (seam : List Nat)
    (hw : 1 ≤ img.width) (hl : seam.length = img.height)
    (hmem : ∀ e ∈ seam, e < img.width) :
    (∃ out, remove_vertical_seam img seam = .ok out) ∧
    (∀ p ∈ (remove_accesses img seam).1, p.1 < img.width ∧ p.2 < img.height) ∧
    (∀ p ∈ (remove_accesses img seam).2, p.1 < img.width - 1 ∧ p.2 < img.height) := by
  obtain ⟨h1, h2⟩ := remove_accesses_bounds img seam hw hmem
  exact ⟨⟨_, remove_vertical_seam_ok img seam hl⟩, h1, h2⟩

/-- Witness for claim C10 on the 2 × 2 image `img22` and seam `[1, 0]`. -/
theorem C10_witness :
    (1 ≤ img22.width ∧ ([1, 0] : List Nat).length = img22.height ∧
      ∀ e ∈ ([1, 0] : List Nat), e < img22.width) ∧
    ((∃ out, remove_vertical_seam img22 [1, 0] = .ok out) ∧
     (∀ p ∈ (remove_accesses img22 [1, 0]).1, p.1 < img22.width ∧ p.2 < img22.height) ∧
     (∀ p ∈ (remove_accesses img22 [1, 0]).2,
       p.1 < img22.width - 1 ∧ p.2 < img22.height)) :=
  ⟨⟨by decide, by decide, by decide⟩,
   C10_remove_accesses_in_bounds img22 [1, 0] (by decide) (by decide) (by decide)⟩

